import Mathlib

/-!
Shallow embedding of the Workday URL discovery core (src/main.py) together with
the relevant caller guard from src/app.py, and proofs about its published
behaviour.

Modelling conventions:
* Python strings are Lean `String`s; the library primitives the source uses
  (`str.replace`, `str.strip`, `str.rstrip`, `str.lower`, `str.format`,
  the `in` operator, `int()`, f-string decimal formatting, `dict.get`,
  `list.sort(key=...)`) are modelled by the executable functions below,
  written with structural recursion so every theorem can be checked by
  evaluation.
* One network probe is a value of type `Option Response`: `none` models a
  raised `requests.RequestException`, `some r` a completed exchange recording
  the final resolved URL after redirects, the status code, the Content-Type
  header, the body text, and the result of `r.json()` (`none` inside the
  `Response` when parsing raised).
* Thread-pool completion order is modelled by an explicit `order : List Nat`
  giving candidate indices in the order `as_completed` yields their futures;
  theorems quantify over all permutations of the submitted index set.
-/

/-- Model of the prefix test on character lists: `isPre p l` is `true` exactly
when `p` is an initial segment of `l` (used for startswith and as the matching
step of substring search and replacement). -/
def isPre : List Char → List Char → Bool
  | [], _ => true
  | _ :: _, [] => false
  | a :: as, b :: bs => a == b && isPre as bs

/-- Model of the Python `in` operator on strings: does `pat` occur as a
contiguous substring of `l`? -/
def listIn (pat : List Char) : List Char → Bool
  | [] => isPre pat []
  | c :: cs => isPre pat (c :: cs) || listIn pat cs

/-- String wrapper for `listIn`: `strIn pat s` models `pat in s`. -/
def strIn (pat s : String) : Bool := listIn pat.data s.data

/-- Fuel-indexed worker for `listReplace`; the fuel is always instantiated with
the length of the scanned list, which bounds the recursion depth. -/
def listReplaceAux (pat rep : List Char) : Nat → List Char → List Char
  | 0, l => l
  | _ + 1, [] => []
  | fuel + 1, c :: cs =>
    if !pat.isEmpty && isPre pat (c :: cs) then
      rep ++ listReplaceAux pat rep fuel (List.drop (pat.length - 1) cs)
    else
      c :: listReplaceAux pat rep fuel cs

/-- Model of Python `str.replace` on character lists: replace every
non-overlapping occurrence of `pat` by `rep`, scanning left to right.
(The source only ever calls replace with a nonempty pattern.) -/
def listReplace (pat rep l : List Char) : List Char := listReplaceAux pat rep l.length l

/-- Model of Python `s.replace(pat, rep)`. -/
def pyReplace (s pat rep : String) : String := ⟨listReplace pat.data rep.data s.data⟩

/-- Model of Python `str.lower` on the ASCII range, where the Content-Type
header values the source compares against live. -/
def pyLower (s : String) : String := ⟨s.data.map Char.toLower⟩

/-- The characters stripped by Python `str.strip()` with no argument: exactly
the 29 code points the source language treats as whitespace - ASCII whitespace,
the four information separators, NEL, NBSP, OGHAM SPACE MARK, the EN QUAD to
HAIR SPACE block, and the line, paragraph, narrow no-break, medium mathematical
and ideographic space separators. -/
def isSpaceChar (c : Char) : Bool :=
  c == ' ' || c == '\t' || c == '\n' || c == '\x0b' || c == '\x0c' || c == '\r'
    || c == '\x1c' || c == '\x1d' || c == '\x1e' || c == '\x1f'
    || c == '\x85' || c == '\xa0' || c == '\u1680'
    || (0x2000 ≤ c.toNat && c.toNat ≤ 0x200a)
    || c == '\u2028' || c == '\u2029' || c == '\u202f' || c == '\u205f' || c == '\u3000'

/-- Model of Python `str.strip()`. -/
def pyStrip (s : String) : String :=
  ⟨((s.data.dropWhile isSpaceChar).reverse.dropWhile isSpaceChar).reverse⟩

/-- Decimal digit character for a value below ten. -/
def digitChar : Nat → Char
  | 0 => '0'
  | 1 => '1'
  | 2 => '2'
  | 3 => '3'
  | 4 => '4'
  | 5 => '5'
  | 6 => '6'
  | 7 => '7'
  | 8 => '8'
  | _ => '9'

/-- Fuel-indexed worker for decimal formatting; fuel `n + 1` suffices for `n`. -/
def natDigitsAux : Nat → Nat → List Char
  | 0, _ => []
  | fuel + 1, n =>
    if n < 10 then [digitChar n]
    else natDigitsAux fuel (n / 10) ++ [digitChar (n % 10)]

/-- Model of Python f-string formatting of a nonnegative integer (`f"{i}"`). -/
def natString (n : Nat) : String := ⟨natDigitsAux (n + 1) n⟩

/-- Numeric value of a decimal digit character. -/
def charVal (c : Char) : Nat := c.toNat - 48

/-- Model of Python `int()` on an all-digit decimal string, as a fold. -/
def parseNat (l : List Char) : Nat := l.foldl (fun acc c => acc * 10 + charVal c) 0

/-- Model of Python `int()` applied to a string. -/
def pyInt (s : String) : Nat := parseNat s.data

/-- Model of Python `str.format` for the templates of this code base, whose only
replacement field is the `{id}` placeholder. -/
def pyFormat (template value : String) : String := pyReplace template "{id}" value

/-- Model of Python `dict.get(key, None)` for string-keyed dictionaries,
represented as association lists in insertion order. -/
def pyDictGet : List (String × String) → String → Option String
  | [], _ => none
  | (k, v) :: rest, key => if key = k then some v else pyDictGet rest key

/-- Insert an element into a list sorted ascending by `key`. -/
def insertByKey {α : Type} (key : α → Nat) (x : α) : List α → List α
  | [] => [x]
  | y :: ys => if key x ≤ key y then x :: y :: ys else y :: insertByKey key x ys

/-- Model of Python `list.sort(key=...)` with an integer key, ascending. -/
def sortByKey {α : Type} (key : α → Nat) : List α → List α
  | [] => []
  | x :: xs => insertByKey key x (sortByKey key xs)

/-- `uniqueOccAt pat l n` states that `pat` occurs in `l` at position `n` and at
no other position (occurrence positions are counted even when they overlap). -/
def uniqueOccAt (pat l : List Char) (n : Nat) : Prop :=
  isPre pat (l.drop n) = true ∧ ∀ i < l.length, isPre pat (l.drop i) = true → i = n

instance (pat l : List Char) (n : Nat) : Decidable (uniqueOccAt pat l n) := by
  unfold uniqueOccAt
  exact inferInstance

/-- Structured values produced by `r.json()` in the source. -/
inductive Json where
  | null
  | bool (b : Bool)
  | num (n : Int)
  | str (s : String)
  | arr (elts : List Json)
  | obj (fields : List (String × Json))

/-- Key lookup in the field list of a parsed object. -/
def jsonLookup : List (String × Json) → String → Option Json
  | [], _ => none
  | (k, v) :: rest, key => if key = k then some v else jsonLookup rest key

/-- Model of dictionary access on a parsed body: `some` exactly when the value
is an object carrying the key (`'k' in data` / `data['k']` in the source). -/
def Json.getKey : Json → String → Option Json
  | Json.obj fields, key => jsonLookup fields key
  | _, _ => none

/-- Observable outcome of one completed HTTP exchange, as consumed by
`check_redirect` (src/main.py line 68 onwards): the final resolved URL after
redirects, the status code, the Content-Type header value, the body text, and
the result of `r.json()` (`none` when JSON parsing raised). -/
structure Response where
  url : String
  status_code : Nat
  content_type : String
  text : String
  jsonBody : Option Json

/-- src/main.py line 19. -/
def INVALID_URL : String := "https://community.workday.com/invalid-url?dev=1"

/-- src/main.py lines 22-26: normalize URLs for comparison (handles trailing
slash differences) via `u.rstrip("/")`. -/
def _normalize_url (u : String) : String :=
  ⟨(u.data.reverse.dropWhile (fun c => c == '/')).reverse⟩

/-- Membership of a Python string among the elements of a parsed list, as the
`in` operator computes it there: equality holds only against string elements. -/
def jsonListHasStr : List Json → String → Bool
  | [], _ => false
  | Json.str s :: rest, key => s == key || jsonListHasStr rest key
  | _ :: rest, key => jsonListHasStr rest key

/-- src/main.py lines 83-96: the duck-typed checks on a successfully parsed
body, inside the try block; `true` means the `return False` of line 88 or 92
is reached.  On a dict, `in` is key membership and indexing returns the value
(line 87 fires on a `failover` key holding `False`, line 91 on an
`errorMessage` key).  On a list, `'failover' in data` is membership among the
elements; when it holds, `data['failover']` raises TypeError, which the except
clause turns into no verdict, and otherwise line 91 tests membership of
`'errorMessage'`.  On a string, `in` is substring containment, with the same
aborting behaviour of the indexing on line 87.  On any other parsed value the
`in` operator itself raises TypeError and the block yields no verdict. -/
def json_error_found : Json → Bool
  | Json.obj fields =>
    (match jsonLookup fields "failover" with
     | some (Json.bool false) => true
     | _ => false)
    || (jsonLookup fields "errorMessage").isSome
  | Json.arr elts =>
    if jsonListHasStr elts "failover" then false
    else jsonListHasStr elts "errorMessage"
  | Json.str s =>
    if strIn "failover" s then false
    else strIn "errorMessage" s
  | _ => false

/-- src/main.py lines 78-96: the structured-body checks.  When the Content-Type
declares JSON, a successfully parsed body (`some data`) is judged by
`json_error_found`; a parse failure (`none`, the caught
ValueError/AttributeError/TypeError) yields no verdict. -/
def json_verdict (content_type : String) (body : Option Json) : Bool :=
  if strIn "application/json" content_type || strIn "text/json" content_type then
    match body with
    | some data => json_error_found data
    | none => false
  else false

/-- src/main.py lines 98-108: the raw-text fallback check on the stripped body
text, applied when the text is nonempty and starts with a brace. -/
def text_verdict (t : String) : Bool :=
  if t ≠ "" then
    if isPre ['\x7b'] (pyStrip t).data then
      strIn "\"failover\":false" (pyStrip t) || strIn "\"failover\": false" (pyStrip t)
        || strIn "\"errorMessage\"" (pyStrip t)
    else false
  else false

/-- src/main.py lines 54-115: the validity oracle.  `none` models a raised
requests.RequestException (line 113), returning False.  For a completed
exchange the checks run in source order: sentinel final URL, bad status,
structured-body verdict, raw-text verdict, then the final 2xx test. -/
def check_redirect (resp : Option Response) : Bool :=
  match resp with
  | none => false
  | some r =>
    if _normalize_url r.url = _normalize_url INVALID_URL then false
    else if 400 ≤ r.status_code then false
    else if json_verdict (pyLower r.content_type) r.jsonBody then false
    else if text_verdict r.text then false
    else decide (200 ≤ r.status_code ∧ r.status_code < 300)

/-- src/main.py lines 119-120: alias of the oracle. -/
def is_valid_workday_url (resp : Option Response) : Bool := check_redirect resp

/-- src/main.py lines 128-142: the production data-center registry, in source
(dict insertion) order. -/
def data_centers : List (String × String) := [
  ("Data Center 1", "https://www.myworkday.com/wday/authgwy/{id}/login.htmld?redirect=n"),
  ("Data Center 3", "https://wd3.myworkday.com/wday/authgwy/{id}/login.htmld?redirect=n"),
  ("Data Center 5", "https://wd5.myworkday.com/wday/authgwy/{id}/login.htmld?redirect=n"),
  ("Data Center 10", "https://wd10.myworkday.com/wday/authgwy/{id}/login.htmld?redirect=n"),
  ("Data Center 12", "https://wd12.myworkday.com/wday/authgwy/{id}/login.htmld?redirect=n"),
  ("Data Center 102", "https://wd102.myworkday.com/wday/authgwy/{id}/login.htmld?redirect=n"),
  ("Data Center 103", "https://wd103.myworkday.com/wday/authgwy/{id}/login.htmld?redirect=n"),
  ("Data Center 104", "https://wd104.myworkdaygov.com/wday/authgwy/{id}/login.htmld?redirect=n"),
  ("Data Center 105", "https://wd105.myworkday.com/wday/authgwy/{id}/login.htmld?redirect=n"),
  ("Data Center 501", "https://wd501.myworkday.com/wday/authgwy/{id}/login.htmld?redirect=n"),
  ("Data Center 503", "https://wd503.myworkday.com/wday/authgwy/{id}/login.htmld?redirect=n"),
  ("Data Center 108", "https://wd108.myworkday.com/wday/authgwy/{id}/login.htmld?redirect=n"),
  ("Data Center 107", "https://wd107.myworkday.com/wday/authgwy/{id}/login.htmld?redirect=n")]

/-- The URLs submitted to the worker pool by find_production_url before any
result is inspected (the dict comprehension at src/main.py lines 147-150):
one formatted URL for every registry entry, for any tenant id. -/
def production_probe_urls (tenant_id : String) : List String :=
  data_centers.map (fun dc => pyFormat dc.2 tenant_id)

/-- src/main.py lines 123-165: probe every data center and return the first
valid match in completion order (`as_completed`), as
(data center name, formatted URL); `(None, None)` is modelled as `none`.
`probe` models the network, `order` lists registry indices in the order their
futures complete. -/
def find_production_url (probe : String → Option Response) (order : List Nat)
    (tenant_id : String) : Option (String × String) :=
  match order with
  | [] => none
  | i :: rest =>
    match data_centers.get? i with
    | none => find_production_url probe rest tenant_id
    | some dc =>
      if check_redirect (probe (pyFormat dc.2 tenant_id)) then
        some (dc.1, pyFormat dc.2 tenant_id)
      else find_production_url probe rest tenant_id

/-- src/main.py lines 173-187: the sandbox template registry, in source order. -/
def sandbox_urls : List (String × String) := [
  ("Data Center 1", "https://wd2-impl-identity.workday.com/wday/authgwy/{id}/login.htmld?redirect=n"),
  ("Data Center 3", "https://wd3-impl-identity.workday.com/wday/authgwy/{id}/login.htmld?redirect=n"),
  ("Data Center 5", "https://wd5-impl-identity.workday.com/wday/authgwy/{id}/login.htmld?redirect=n"),
  ("Data Center 10", "https://wd10-impl-identity.workday.com/wday/authgwy/{id}/login.htmld?redirect=n"),
  ("Data Center 12", "https://impl.wd12.myworkday.com/wday/authgwy/{id}/login.htmld?redirect=n"),
  ("Data Center 102", "https://wd102-impl-identity.workday.com/wday/authgwy/{id}/login.htmld?redirect=n"),
  ("Data Center 103", "https://wd103-impl-identity.workday.com/wday/authgwy/{id}/login.htmld?redirect=n"),
  ("Data Center 104", "https://wd104-impl-identity.workdaygov.com/wday/authgwy/{id}/login.htmld?redirect=n"),
  ("Data Center 105", "https://wd105-impl-identity.workday.com/wday/authgwy/{id}/login.htmld?redirect=n"),
  ("Data Center 501", "https://impl-identity.wd501.myworkday.com/wday/authgwy/{id}/upc/login?redirect=n"),
  ("Data Center 503", "https://impl-identity.wd503.myworkday.com/wday/authgwy/{id}/upc/login?redirect=n"),
  ("Data Center 108", "https://impl-identity.wd108.myworkday.com/wday/authgwy/{id}/upc/login?redirect=n"),
  ("Data Center 107", "https://impl-identity.wd107.myworkday.com/wday/authgwy/{id}/upc/login?redirect=n")]

/-- src/main.py lines 168-188: returns the sandbox TEMPLATE for the data
center, not a formatted URL; tenant_id is accepted but unused, matching the
source signature and its compatibility note. -/
def find_sandbox_url (data_center : String) (tenant_id : String) : Option String :=
  pyDictGet sandbox_urls data_center

/-- src/main.py lines 191-193: replace the segment between slashes holding the
placeholder by its `_Preview` variant. -/
def find_preview_url (sandbox_url_template : String) : String :=
  pyReplace sandbox_url_template "/{id}/" "/{id}_Preview/"

/-- src/main.py lines 196-198: replace the placeholder segment by its `_cc`
variant. -/
def find_cc_url (sandbox_url_template : String) : String :=
  pyReplace sandbox_url_template "/{id}/" "/{id}_cc/"

/-- Line 225 of src/main.py: the label recorded for a validated candidate. -/
def impl_label (i : Nat) : String := "IMPL" ++ natString i ++ ":"

/-- Lines 210-211 of src/main.py: derived id `tenant_id + i` (plain
concatenation) substituted into the sandbox template. -/
def impl_url (sandbox_url_template tenant_id : String) (i : Nat) : String :=
  pyFormat sandbox_url_template (tenant_id ++ natString i)

/-- The (label, url) pair appended for a validated candidate index. -/
def impl_pair (sandbox_url_template tenant_id : String) (i : Nat) : String × String :=
  (impl_label i, impl_url sandbox_url_template tenant_id i)

/-- src/main.py lines 207-212: the candidate triples (index, derived id, url),
built for i = 1 .. max_impl in ascending index order before submission. -/
def urls_to_check (sandbox_url_template tenant_id : String) (max_impl : Nat) :
    List (Nat × String × String) :=
  (List.range' 1 max_impl).map
    (fun i => (i, tenant_id ++ natString i, impl_url sandbox_url_template tenant_id i))

/-- Line 231 of src/main.py: the sort key
`int(label.replace("IMPL", "").replace(":", ""))`. -/
def labelKey (label : String) : Nat :=
  pyInt (pyReplace (pyReplace label "IMPL" "") ":" "")

/-- src/main.py lines 201-233: collect the pairs whose probes validate, in
completion order (`as_completed` over the submitted futures for indices
1 .. max_impl, modelled by `order`), then sort ascending by the numeric index
parsed back out of the label. -/
def find_implementation_tenants (probe : String → Option Response)
    (sandbox_url_template tenant_id : String) (max_impl : Nat) (order : List Nat) :
    List (String × String) :=
  sortByKey (fun p => labelKey p.1)
    (order.filterMap (fun i =>
      if check_redirect (probe (impl_url sandbox_url_template tenant_id i)) then
        some (impl_pair sandbox_url_template tenant_id i)
      else none))

/-- Scheduling-independent description of the scan result: the valid candidates
in ascending index order. -/
def implCanonical (probe : String → Option Response)
    (sandbox_url_template tenant_id : String) (max_impl : Nat) : List (String × String) :=
  (List.range' 1 max_impl).filterMap (fun i =>
    if check_redirect (probe (impl_url sandbox_url_template tenant_id i)) then
      some (impl_pair sandbox_url_template tenant_id i)
    else none)

/-- src/app.py lines 406-420: the submit handler.  An empty tenant id warns and
stops (`none`: no engine call, no probe dispatched); otherwise the engine is
invoked and its result rendered. -/
def submitted_handler (probe : String → Option Response) (order : List Nat)
    (tenant_id : String) : Option (Option (String × String)) :=
  if tenant_id = "" then none
  else some (find_production_url probe order tenant_id)

/-- Probe behaviour in which every exchange completes with a plain 200, an
empty body and no redirect away from the requested URL. -/
def probeOk : String → Option Response := fun u => some ⟨u, 200, "", "", none⟩

/-! Basic facts about the prefix test. -/

theorem isPre_iff_take : ∀ (p l : List Char), isPre p l = true ↔ l.take p.length = p
  | [], l => by simp [isPre]
  | _ :: _, [] => by simp [isPre]
  | a :: as, b :: bs => by
    simp only [isPre, List.length_cons, List.take_succ_cons, Bool.and_eq_true, beq_iff_eq]
    rw [isPre_iff_take as bs]
    constructor
    · rintro ⟨h1, h2⟩
      rw [h1, h2]
    · intro h
      injection h with h1 h2
      exact ⟨h1.symm, h2⟩

theorem isPre_length_le {p l : List Char} (h : isPre p l = true) : p.length ≤ l.length := by
  have h2 := congrArg List.length ((isPre_iff_take p l).mp h)
  simp only [List.length_take] at h2
  omega

theorem isPre_nil_of_ne {p : List Char} (hp : p ≠ []) : isPre p [] = false := by
  cases p with
  | nil => exact absurd rfl hp
  | cons a as => rfl

theorem isPre_append_self (p t : List Char) : isPre p (p ++ t) = true :=
  (isPre_iff_take _ _).mpr (List.take_left ..)

theorem isPre_mono {p x : List Char} (y : List Char) (h : isPre p x = true) :
    isPre p (x ++ y) = true := by
  have hx := (isPre_iff_take p x).mp h
  have hle : p.length ≤ x.length := isPre_length_le h
  refine (isPre_iff_take _ _).mpr ?_
  rw [List.take_append_eq_append_take, Nat.sub_eq_zero_of_le hle, List.take_zero,
    List.append_nil, hx]

theorem isPre_of_append_le {p x y : List Char} (hle : p.length ≤ x.length)
    (h : isPre p (x ++ y) = true) : isPre p x = true := by
  have hx := (isPre_iff_take p (x ++ y)).mp h
  rw [List.take_append_eq_append_take, Nat.sub_eq_zero_of_le hle, List.take_zero,
    List.append_nil] at hx
  exact (isPre_iff_take _ _).mpr hx

theorem isPre_append_split : ∀ {x p : List Char}, x.length ≤ p.length → ∀ (y : List Char),
    (isPre p (x ++ y) = true ↔ p.take x.length = x ∧ isPre (p.drop x.length) y = true)
  | [], p, _, y => by simp
  | c :: cx, [], hle, y => by simp at hle
  | c :: cx, a :: ap, hle, y => by
    simp only [List.cons_append, isPre, Bool.and_eq_true, beq_iff_eq, List.length_cons,
      List.take_succ_cons, List.drop_succ_cons, List.append_eq]
    rw [isPre_append_split (by simpa using hle) y]
    constructor
    · rintro ⟨h1, h2, h3⟩
      exact ⟨by rw [h1, h2], h3⟩
    · rintro ⟨h1, h2⟩
      injection h1 with ha hb
      exact ⟨ha, hb, h2⟩

theorem drop_append_of_le {α : Type} : ∀ (i : Nat) (A Z : List α), i ≤ A.length →
    (A ++ Z).drop i = A.drop i ++ Z
  | 0, _, _, _ => rfl
  | i + 1, [], _, h => by simp at h
  | i + 1, a :: A, Z, h => by
    simp only [List.cons_append, List.drop_succ_cons]
    exact drop_append_of_le i A Z (by simpa using h)

theorem drop_append_add {α : Type} (A Z : List α) (j : Nat) :
    (A ++ Z).drop (A.length + j) = Z.drop j := by
  rw [← List.drop_drop, List.drop_left]

/-! Facts about the replacement scan. -/

theorem replaceAux_fuel (pat rep : List Char) : ∀ (f1 f2 : Nat) (l : List Char),
    l.length ≤ f1 → l.length ≤ f2 → listReplaceAux pat rep f1 l = listReplaceAux pat rep f2 l
  | 0, f2, l, h1, _ => by
    have : l = [] := List.eq_nil_of_length_eq_zero (Nat.le_zero.mp h1)
    subst this
    cases f2 <;> rfl
  | f1 + 1, 0, l, _, h2 => by
    have : l = [] := List.eq_nil_of_length_eq_zero (Nat.le_zero.mp h2)
    subst this
    rfl
  | _ + 1, _ + 1, [], _, _ => rfl
  | f1 + 1, f2 + 1, c :: cs, h1, h2 => by
    simp only [List.length_cons, Nat.add_le_add_iff_right] at h1 h2
    simp only [listReplaceAux]
    by_cases hc : (!pat.isEmpty && isPre pat (c :: cs)) = true
    · rw [if_pos hc, if_pos hc]
      have hd : (List.drop (pat.length - 1) cs).length ≤ cs.length := by
        rw [List.length_drop]; omega
      rw [replaceAux_fuel pat rep f1 f2 (List.drop (pat.length - 1) cs)
        (Nat.le_trans hd h1) (Nat.le_trans hd h2)]
    · rw [if_neg hc, if_neg hc, replaceAux_fuel pat rep f1 f2 cs h1 h2]

theorem replace_no_occ (pat rep : List Char) : ∀ (l : List Char),
    (∀ i, ¬ isPre pat (l.drop i) = true) → listReplace pat rep l = l
  | [], _ => by cases pat <;> rfl
  | c :: cs, h => by
    have h0 : isPre pat (c :: cs) = false := by
      have := h 0
      simp only [List.drop_zero] at this
      exact Bool.not_eq_true _ ▸ (Bool.eq_false_iff.mpr this)
    show listReplaceAux pat rep (cs.length + 1) (c :: cs) = c :: cs
    simp only [listReplaceAux, h0, Bool.and_false, Bool.false_eq_true, if_false]
    congr 1
    rw [replaceAux_fuel pat rep cs.length cs.length cs (Nat.le_refl _) (Nat.le_refl _)]
    exact replace_no_occ pat rep cs (fun i => by
      have := h (i + 1)
      simpa using this)

theorem replace_at (pat rep : List Char) (hp : pat ≠ []) : ∀ (a b : List Char),
    (∀ i < a.length, ¬ isPre pat ((a ++ pat ++ b).drop i) = true) →
    listReplace pat rep (a ++ pat ++ b) = a ++ rep ++ listReplace pat rep b
  | [], b, _ => by
    obtain ⟨p, ps, rfl⟩ : ∃ p ps, pat = p :: ps := by
      cases pat with
      | nil => exact absurd rfl hp
      | cons p ps => exact ⟨p, ps, rfl⟩
    show listReplaceAux (p :: ps) rep ((p :: ps) ++ b).length ((p :: ps) ++ b) = _
    have hlen : ((p :: ps) ++ b).length = (ps ++ b).length + 1 := by simp
    rw [hlen]
    show listReplaceAux (p :: ps) rep ((ps ++ b).length + 1) (p :: (ps ++ b)) = _
    have hcond : (!(p :: ps).isEmpty && isPre (p :: ps) (p :: (ps ++ b))) = true := by
      have : isPre (p :: ps) ((p :: ps) ++ b) = true := isPre_append_self _ _
      simpa using this
    simp only [listReplaceAux, hcond, if_true]
    have hdrop : List.drop ((p :: ps).length - 1) (ps ++ b) = b := by
      simp only [List.length_cons, Nat.add_sub_cancel]
      exact List.drop_left ps b
    rw [hdrop, replaceAux_fuel (p :: ps) rep (ps ++ b).length b.length b
      (by simp) (Nat.le_refl _)]
    rfl
  | c :: a, b, h => by
    have h0 : isPre pat ((c :: a) ++ pat ++ b) = false := by
      have := h 0 (by simp)
      simp only [List.drop_zero] at this
      exact Bool.eq_false_iff.mpr this
    show listReplaceAux pat rep ((c :: a) ++ pat ++ b).length ((c :: a) ++ pat ++ b) = _
    have hlen : ((c :: a) ++ pat ++ b).length = (a ++ pat ++ b).length + 1 := by simp
    rw [hlen]
    have hshape : (c :: a) ++ pat ++ b = c :: (a ++ pat ++ b) := by simp
    rw [hshape]
    have hcond : (!pat.isEmpty && isPre pat (c :: (a ++ pat ++ b))) = false := by
      rw [← hshape, h0, Bool.and_false]
    simp only [listReplaceAux, hcond, Bool.false_eq_true, if_false]
    have := replace_at pat rep hp a b (fun i hi => by
      have h2 := h (i + 1) (by simpa using Nat.succ_lt_succ hi)
      rw [hshape] at h2
      simpa using h2)
    show c :: listReplace pat rep (a ++ pat ++ b) = c :: a ++ rep ++ listReplace pat rep b
    rw [this]
    simp

/-! Unique occurrences and idempotence of the replacement. -/

theorem occ_lt_length {pat l : List Char} {i : Nat} (hp : pat ≠ [])
    (h : isPre pat (l.drop i) = true) : i < l.length := by
  have h1 := isPre_length_le h
  rw [List.length_drop] at h1
  have h2 : 0 < pat.length := List.length_pos.mpr hp
  omega

theorem uniqueOcc_eq {pat l : List Char} {n : Nat} (hp : pat ≠ [])
    (hu : uniqueOccAt pat l n) : ∀ i, isPre pat (l.drop i) = true → i = n :=
  fun i hi => hu.2 i (occ_lt_length hp hi) hi

theorem uniqueOcc_decomp {pat l : List Char} {n : Nat} (hp : pat ≠ [])
    (hu : uniqueOccAt pat l n) :
    l = l.take n ++ pat ++ l.drop (n + pat.length) := by
  have h1 : List.take pat.length (l.drop n) = pat := (isPre_iff_take _ _).mp hu.1
  have h2 : l.drop n = pat ++ l.drop (n + pat.length) := by
    conv_lhs => rw [← List.take_append_drop pat.length (l.drop n)]
    rw [h1, List.drop_drop]
  calc l = l.take n ++ l.drop n := (List.take_append_drop n l).symm
    _ = l.take n ++ (pat ++ l.drop (n + pat.length)) := by rw [h2]
    _ = l.take n ++ pat ++ l.drop (n + pat.length) := by rw [List.append_assoc]

theorem replace_of_unique {pat rep : List Char} (hp : pat ≠ []) {l : List Char} {n : Nat}
    (hu : uniqueOccAt pat l n) :
    listReplace pat rep l = l.take n ++ rep ++ l.drop (n + pat.length) := by
  have hdecomp := uniqueOcc_decomp hp hu
  have huniq := uniqueOcc_eq hp hu
  have hp1 : 0 < pat.length := List.length_pos.mpr hp
  have hB : ∀ j, ¬ isPre pat ((l.drop (n + pat.length)).drop j) = true := by
    intro j hj
    rw [List.drop_drop] at hj
    have := huniq _ hj
    omega
  have ha : ∀ i < (l.take n).length,
      ¬ isPre pat ((l.take n ++ pat ++ l.drop (n + pat.length)).drop i) = true := by
    intro i hi hocc
    rw [← hdecomp] at hocc
    have := huniq _ hocc
    rw [List.length_take] at hi
    omega
  conv_lhs => rw [hdecomp]
  rw [replace_at pat rep hp _ _ ha, replace_no_occ pat rep _ hB]

theorem no_occ_after_replace {pat rep sp mid : List Char} {q : Char}
    (hpat : pat = sp ++ [q]) (hrep : rep = sp ++ mid ++ [q])
    (hin : ∀ j < rep.length, j + pat.length ≤ rep.length → ¬ isPre pat (rep.drop j) = true)
    (hsuf : ∀ k < pat.length, 2 ≤ k → pat.take k ≠ rep.drop (rep.length - k))
    {l : List Char} {n : Nat} (hu : uniqueOccAt pat l n) :
    ∀ i, ¬ isPre pat ((l.take n ++ rep ++ l.drop (n + pat.length)).drop i) = true := by
  have hp : pat ≠ [] := by rw [hpat]; simp
  have hplen : pat.length = sp.length + 1 := by
    rw [hpat]
    simp only [List.length_append, List.length_cons, List.length_nil]
  have hnl : n < l.length := occ_lt_length hp hu.1
  have hA : (l.take n).length = n := by
    rw [List.length_take]
    omega
  have hdecomp : l = l.take n ++ pat ++ l.drop (n + pat.length) := uniqueOcc_decomp hp hu
  have huniq : ∀ j, isPre pat (l.drop j) = true → j = n := uniqueOcc_eq hp hu
  intro i hocc
  rcases Nat.lt_or_ge i n with hi | hi
  · rw [List.append_assoc, drop_append_of_le i _ _ (by rw [hA]; omega)] at hocc
    have hlenAi : ((l.take n).drop i).length = n - i := by rw [List.length_drop, hA]
    have hldrop : l.drop i = (l.take n).drop i ++ (pat ++ l.drop (n + pat.length)) := by
      nth_rewrite 1 [hdecomp]
      rw [List.append_assoc, drop_append_of_le i _ _ (by rw [hA]; omega)]
    rcases le_or_lt pat.length (n - i) with hk | hk
    · have hpre : isPre pat ((l.take n).drop i) = true :=
        isPre_of_append_le (by omega) hocc
      have hoccl : isPre pat (l.drop i) = true := by
        rw [hldrop]
        exact isPre_mono _ hpre
      have := huniq i hoccl
      omega
    · have hxle : ((l.take n).drop i).length ≤ pat.length := by omega
      obtain ⟨h1, h2⟩ := (isPre_append_split hxle _).mp hocc
      rw [hrep] at h2
      simp only [List.append_assoc] at h2
      have hdk : (pat.drop ((l.take n).drop i).length).length ≤ sp.length := by
        rw [List.length_drop]
        omega
      have hsp : isPre (pat.drop ((l.take n).drop i).length) sp = true :=
        isPre_of_append_le hdk h2
      have hoccl : isPre pat (l.drop i) = true := by
        rw [hldrop]
        refine (isPre_append_split hxle _).mpr ⟨h1, ?_⟩
        rw [hpat] at hsp ⊢
        simp only [List.append_assoc]
        exact isPre_mono _ hsp
      have := huniq i hoccl
      omega
  · rw [List.append_assoc] at hocc
    have hieq : i = (l.take n).length + (i - n) := by rw [hA]; omega
    rw [hieq, drop_append_add] at hocc
    rcases Nat.lt_or_ge (i - n) rep.length with hj | hj
    · rw [drop_append_of_le _ _ _ (Nat.le_of_lt hj)] at hocc
      rcases le_or_lt ((i - n) + pat.length) rep.length with hfit | hfit
      · exact hin (i - n) hj hfit (isPre_of_append_le (by rw [List.length_drop]; omega) hocc)
      · have hxle2 : (rep.drop (i - n)).length ≤ pat.length := by
          rw [List.length_drop]
          omega
        obtain ⟨h1, h2⟩ := (isPre_append_split hxle2 _).mp hocc
        have hkl : (rep.drop (i - n)).length = rep.length - (i - n) := List.length_drop _ _
        by_cases hk1 : rep.length - (i - n) = 1
        · have hklt1 : rep.length - (i - n) < pat.length := by omega
          have hspne : 1 ≤ sp.length := by omega
          have hsplit_l : l = (l.take n ++ sp) ++ ([q] ++ l.drop (n + pat.length)) := by
            conv_lhs => rw [hdecomp]
            rw [hpat]
            simp only [List.append_assoc]
          have hjq : i - n = (sp ++ mid).length := by
            have hh : (sp ++ mid).length + 1 = rep.length := by
              rw [hrep]
              simp only [List.length_append, List.length_cons, List.length_nil]
            omega
          have hrepq : rep.drop (i - n) = [q] := by
            rw [hjq, hrep]
            exact List.drop_left (sp ++ mid) [q]
          rw [hrepq] at h1 h2
          simp only [List.length_cons, List.length_nil] at h1 h2
          have hldrop2 : l.drop (n + sp.length) = [q] ++ l.drop (n + pat.length) := by
            nth_rewrite 1 [hsplit_l]
            have hlen2 : (l.take n ++ sp).length = n + sp.length := by simp [hA]
            rw [← hlen2, List.drop_left]
          have hoccl : isPre pat (l.drop (n + sp.length)) = true := by
            rw [hldrop2]
            refine (isPre_append_split (by simp [hplen]) _).mpr ⟨?_, ?_⟩
            · simpa using h1
            · simpa using h2
          have := huniq _ hoccl
          omega
        · have hk2 : 2 ≤ rep.length - (i - n) := by omega
          have hklt : rep.length - (i - n) < pat.length := by omega
          have hieq2 : i - n = rep.length - (rep.length - (i - n)) := by omega
          have h1' : pat.take (rep.length - (i - n))
              = rep.drop (rep.length - (rep.length - (i - n))) := by
            rw [← hieq2, ← hkl]
            exact h1
          exact hsuf _ hklt hk2 h1'
    · have hjeq : i - n = rep.length + (i - n - rep.length) := by omega
      rw [hjeq, drop_append_add] at hocc
      have hoccl : isPre pat (l.drop (n + pat.length + (i - n - rep.length))) = true := by
        have hdd : l.drop (n + pat.length + (i - n - rep.length))
            = (l.drop (n + pat.length)).drop (i - n - rep.length) := by
          rw [List.drop_drop]
        rw [hdd]
        exact hocc
      have := huniq _ hoccl
      omega

theorem replace_idem {pat rep sp mid : List Char} {q : Char}
    (hpat : pat = sp ++ [q]) (hrep : rep = sp ++ mid ++ [q])
    (hin : ∀ j < rep.length, j + pat.length ≤ rep.length → ¬ isPre pat (rep.drop j) = true)
    (hsuf : ∀ k < pat.length, 2 ≤ k → pat.take k ≠ rep.drop (rep.length - k))
    {l : List Char} {n : Nat} (hu : uniqueOccAt pat l n) :
    listReplace pat rep (listReplace pat rep l) = listReplace pat rep l := by
  have hp : pat ≠ [] := by rw [hpat]; simp
  rw [replace_of_unique hp hu]
  exact replace_no_occ pat rep _ (no_occ_after_replace hpat hrep hin hsuf hu)

/-! Decimal formatting, parsing, and the label sort key. -/

theorem isPre_cons_ne {a c : Char} {as cs : List Char} (h : a ≠ c) :
    isPre (a :: as) (c :: cs) = false := by
  simp [isPre, h]

theorem no_occ_of_head_notin {a : Char} {as : List Char} {l : List Char}
    (h : ∀ c ∈ l, c ≠ a) : ∀ i, ¬ isPre (a :: as) (l.drop i) = true := by
  intro i hocc
  cases hd : l.drop i with
  | nil =>
    rw [hd] at hocc
    exact absurd hocc (by simp [isPre])
  | cons c cs =>
    rw [hd] at hocc
    have hc : c ∈ l := List.mem_of_mem_drop (hd ▸ List.mem_cons_self c cs)
    have hac : a ≠ c := fun he => (h c hc) he.symm
    rw [isPre_cons_ne hac] at hocc
    exact absurd hocc (by simp)

theorem replace_strip_head {a : Char} (as : List Char) {tail : List Char}
    (h : ∀ c ∈ tail, c ≠ a) :
    listReplace (a :: as) [] ((a :: as) ++ tail) = tail := by
  have ha : ∀ i < ([] : List Char).length,
      ¬ isPre (a :: as) ((([] : List Char) ++ (a :: as) ++ tail).drop i) = true := by
    intro i hi
    simp at hi
  have h1 := replace_at (a :: as) [] (by simp) [] tail ha
  simp only [List.nil_append] at h1
  rw [h1, replace_no_occ _ _ _ (no_occ_of_head_notin h)]

theorem replace_strip_last {q : Char} {l : List Char} (h : ∀ c ∈ l, c ≠ q) :
    listReplace [q] [] (l ++ [q]) = l := by
  have ha : ∀ i < l.length, ¬ isPre [q] ((l ++ [q] ++ ([] : List Char)).drop i) = true := by
    intro i hi hocc
    rw [List.append_nil, drop_append_of_le i _ _ (Nat.le_of_lt hi)] at hocc
    cases hd : l.drop i with
    | nil =>
      have hlen : (l.drop i).length = 0 := by rw [hd]; rfl
      rw [List.length_drop] at hlen
      omega
    | cons c cs =>
      rw [hd] at hocc
      have hc : c ∈ l := List.mem_of_mem_drop (hd ▸ List.mem_cons_self c cs)
      have hqc : q ≠ c := fun he => (h c hc) he.symm
      rw [List.cons_append, isPre_cons_ne hqc] at hocc
      exact absurd hocc (by simp)
  have h1 := replace_at [q] [] (by simp) l [] ha
  rw [List.append_nil] at h1
  rw [h1]
  show l ++ ([] : List Char) ++ ([] : List Char) = l
  simp

theorem charVal_digitChar : ∀ d < 10, charVal (digitChar d) = d := by decide

theorem digitChar_ne : ∀ d < 10, digitChar d ≠ 'I' ∧ digitChar d ≠ ':' := by decide

theorem natDigitsAux_mem : ∀ (fuel n : Nat), n < fuel →
    ∀ c ∈ natDigitsAux fuel n, ∃ d, d < 10 ∧ c = digitChar d
  | 0, _, h => by omega
  | fuel + 1, n, h => by
    intro c hc
    simp only [natDigitsAux] at hc
    by_cases h10 : n < 10
    · rw [if_pos h10] at hc
      simp at hc
      exact ⟨n, h10, hc⟩
    · rw [if_neg h10] at hc
      rcases List.mem_append.mp hc with h1 | h2
      · refine natDigitsAux_mem fuel (n / 10) ?_ c h1
        have := Nat.div_lt_self (show 0 < n by omega) (show (1 : Nat) < 10 by omega)
        omega
      · simp at h2
        exact ⟨n % 10, Nat.mod_lt _ (by omega), h2⟩

theorem parseNat_append_digit (l : List Char) (c : Char) :
    parseNat (l ++ [c]) = parseNat l * 10 + charVal c := by
  unfold parseNat
  rw [List.foldl_append]
  rfl

theorem parseNat_natDigitsAux : ∀ (fuel n : Nat), n < fuel →
    parseNat (natDigitsAux fuel n) = n
  | 0, _, h => by omega
  | fuel + 1, n, h => by
    simp only [natDigitsAux]
    by_cases h10 : n < 10
    · rw [if_pos h10]
      show 0 * 10 + charVal (digitChar n) = n
      rw [charVal_digitChar n h10]
      omega
    · rw [if_neg h10, parseNat_append_digit,
        parseNat_natDigitsAux fuel (n / 10) (by
          have := Nat.div_lt_self (show 0 < n by omega) (show (1 : Nat) < 10 by omega)
          omega),
        charVal_digitChar (n % 10) (Nat.mod_lt _ (by omega))]
      have := Nat.div_add_mod n 10
      omega

theorem labelKey_impl_label (i : Nat) : labelKey (impl_label i) = i := by
  have hdig : ∀ c ∈ natDigitsAux (i + 1) i, ∃ d, d < 10 ∧ c = digitChar d :=
    natDigitsAux_mem (i + 1) i (Nat.lt_succ_self i)
  have hne : ∀ c ∈ natDigitsAux (i + 1) i ++ [':'], c ≠ 'I' := by
    intro c hc
    rcases List.mem_append.mp hc with h1 | h2
    · obtain ⟨d, hd, rfl⟩ := hdig c h1
      exact (digitChar_ne d hd).1
    · simp at h2
      subst h2
      decide
  have hne2 : ∀ c ∈ natDigitsAux (i + 1) i, c ≠ ':' := by
    intro c hc
    obtain ⟨d, hd, rfl⟩ := hdig c hc
    exact (digitChar_ne d hd).2
  have hdata : (impl_label i).data
      = ('I' :: 'M' :: 'P' :: 'L' :: []) ++ (natDigitsAux (i + 1) i ++ [':']) := by
    show ("IMPL" ++ natString i ++ ":").data = _
    rw [String.data_append, String.data_append]
    show ['I', 'M', 'P', 'L'] ++ natDigitsAux (i + 1) i ++ [':'] = _
    rw [List.append_assoc]
  show parseNat (listReplace [':'] [] (listReplace ['I', 'M', 'P', 'L'] [] (impl_label i).data)) = i
  rw [hdata, replace_strip_head ['M', 'P', 'L'] hne, replace_strip_last hne2,
    parseNat_natDigitsAux (i + 1) i (Nat.lt_succ_self i)]

/-! Sorting: permutation, sortedness, and uniqueness of the sorted result. -/

theorem insertByKey_perm {α : Type} (key : α → Nat) (x : α) :
    ∀ l : List α, (insertByKey key x l).Perm (x :: l)
  | [] => List.Perm.refl _
  | y :: ys => by
    simp only [insertByKey]
    by_cases h : key x ≤ key y
    · rw [if_pos h]
    · rw [if_neg h]
      exact ((insertByKey_perm key x ys).cons y).trans (List.Perm.swap x y ys)

theorem sortByKey_perm {α : Type} (key : α → Nat) :
    ∀ l : List α, (sortByKey key l).Perm l
  | [] => List.Perm.refl _
  | x :: xs => (insertByKey_perm key x _).trans ((sortByKey_perm key xs).cons x)

theorem insertByKey_pairwise {α : Type} (key : α → Nat) (x : α) :
    ∀ {l : List α}, List.Pairwise (fun a b => key a ≤ key b) l →
      List.Pairwise (fun a b => key a ≤ key b) (insertByKey key x l)
  | [], _ => by simp [insertByKey]
  | y :: ys, h => by
    simp only [insertByKey]
    rcases List.pairwise_cons.mp h with ⟨hy, hys⟩
    by_cases hxy : key x ≤ key y
    · rw [if_pos hxy]
      refine List.pairwise_cons.mpr ⟨?_, h⟩
      intro b hb
      rcases List.mem_cons.mp hb with rfl | hb2
      · exact hxy
      · exact Nat.le_trans hxy (hy b hb2)
    · rw [if_neg hxy]
      refine List.pairwise_cons.mpr ⟨?_, insertByKey_pairwise key x hys⟩
      intro b hb
      have hb2 := (insertByKey_perm key x ys).mem_iff.mp hb
      rcases List.mem_cons.mp hb2 with rfl | hb3
      · omega
      · exact hy b hb3

theorem sortByKey_pairwise {α : Type} (key : α → Nat) :
    ∀ l : List α, List.Pairwise (fun a b => key a ≤ key b) (sortByKey key l)
  | [] => List.Pairwise.nil
  | x :: xs => insertByKey_pairwise key x (sortByKey_pairwise key xs)

theorem sortByKey_eq_of_perm_strict {α : Type} (key : α → Nat) (l canon : List α)
    (hperm : l.Perm canon)
    (hcanon : List.Pairwise (fun a b => key a < key b) canon) :
    sortByKey key l = canon := by
  have hsp : (sortByKey key l).Perm canon := (sortByKey_perm key l).trans hperm
  have hle : List.Pairwise (fun a b => key a ≤ key b) (sortByKey key l) :=
    sortByKey_pairwise key l
  have hne : List.Pairwise (fun a b => key a ≠ key b) (sortByKey key l) := by
    have hcne : List.Pairwise (fun a b => key a ≠ key b) canon :=
      hcanon.imp (fun hab => Nat.ne_of_lt hab)
    exact (List.Perm.pairwise_iff (fun hxy => hxy.symm) hsp).mpr hcne
  have hlt : List.Pairwise (fun a b => key a < key b) (sortByKey key l) :=
    (hle.and hne).imp (fun hab => Nat.lt_of_le_of_ne hab.1 hab.2)
  haveI : IsAntisymm α (fun a b => key a < key b) :=
    ⟨fun a b h1 h2 => absurd (Nat.lt_trans h1 h2) (Nat.lt_irrefl _)⟩
  exact List.eq_of_perm_of_sorted hsp hlt hcanon

/-! The scanner result in canonical, scheduling-independent form. -/

theorem impl_entry_key (probe : String → Option Response) (tmpl t : String) (i : Nat)
    (p : String × String)
    (hp : (if check_redirect (probe (impl_url tmpl t i)) then some (impl_pair tmpl t i)
      else none) = some p) :
    labelKey p.1 = i := by
  by_cases hc : check_redirect (probe (impl_url tmpl t i)) = true
  · rw [if_pos hc] at hp
    injection hp with hpp
    subst hpp
    exact labelKey_impl_label i
  · rw [if_neg hc] at hp
    exact Option.noConfusion hp

theorem implCanonical_pairwise (probe : String → Option Response) (tmpl t : String)
    (m : Nat) :
    List.Pairwise (fun p q => labelKey p.1 < labelKey q.1) (implCanonical probe tmpl t m) := by
  unfold implCanonical
  rw [List.pairwise_filterMap]
  refine (List.pairwise_lt_range' 1 m).imp ?_
  intro a b hab p hp q hq
  rw [Option.mem_def] at hp hq
  rw [impl_entry_key probe tmpl t a p hp, impl_entry_key probe tmpl t b q hq]
  exact hab

theorem find_impl_eq_canonical (probe : String → Option Response)
    (tmpl t : String) (m : Nat) (order : List Nat)
    (h : order.Perm (List.range' 1 m)) :
    find_implementation_tenants probe tmpl t m order = implCanonical probe tmpl t m := by
  unfold find_implementation_tenants
  exact sortByKey_eq_of_perm_strict _ _ _
    (List.Perm.filterMap _ h) (implCanonical_pairwise probe tmpl t m)

/-! Traversal facts for the production locator and the scanner. -/

theorem find_production_skip (probe : String → Option Response) (t : String) (j : Nat)
    (hj : ∀ dc, data_centers.get? j = some dc →
      check_redirect (probe (pyFormat dc.2 t)) = false) :
    ∀ order : List Nat,
      find_production_url probe order t
        = find_production_url probe (order.filter (fun i => i != j)) t
  | [] => rfl
  | i :: rest => by
    have ih := find_production_skip probe t j hj rest
    by_cases hij : i = j
    · have hfil : (i :: rest).filter (fun x => x != j) = rest.filter (fun x => x != j) := by
        simp [List.filter_cons, hij]
      rw [hfil, ← ih]
      simp only [find_production_url]
      cases hg : data_centers.get? i with
      | none => rfl
      | some dc =>
        rw [hij] at hg
        simp [hj dc hg]
    · have hfil : (i :: rest).filter (fun x => x != j)
          = i :: rest.filter (fun x => x != j) := by
        simp [List.filter_cons, hij]
      rw [hfil]
      simp only [find_production_url]
      cases hg : data_centers.get? i with
      | none => exact ih
      | some dc =>
        by_cases hc : check_redirect (probe (pyFormat dc.2 t)) = true
        · simp [hc]
        · simp [hc]
          exact ih

theorem find_production_unique (probe : String → Option Response) (t : String) (k : Nat)
    (dck : String × String) (hget : data_centers.get? k = some dck)
    (hvalid : check_redirect (probe (pyFormat dck.2 t)) = true)
    (hothers : ∀ j < data_centers.length, j ≠ k → ∀ dc, data_centers.get? j = some dc →
      check_redirect (probe (pyFormat dc.2 t)) = false) :
    ∀ order : List Nat, k ∈ order →
      find_production_url probe order t = some (dck.1, pyFormat dck.2 t)
  | [], hmem => absurd hmem (List.not_mem_nil k)
  | i :: rest, hmem => by
    simp only [find_production_url]
    by_cases hik : i = k
    · subst hik
      cases hg : data_centers.get? i with
      | none =>
        rw [hget] at hg
        exact Option.noConfusion hg
      | some dc =>
        have hdc : dck = dc := by
          rw [hget] at hg
          exact Option.some.inj hg
        subst hdc
        simp [hvalid]
    · have hkrest : k ∈ rest := by
        rcases List.mem_cons.mp hmem with h | h
        · exact absurd h.symm hik
        · exact h
      have ih := find_production_unique probe t k dck hget hvalid hothers rest hkrest
      cases hg : data_centers.get? i with
      | none => exact ih
      | some dc =>
        have hlt : i < data_centers.length := by
          by_contra hge
          rw [List.get?_eq_none.mpr (by omega)] at hg
          exact Option.noConfusion hg
        have hskip := hothers i hlt hik dc hg
        simp [hskip]
        exact ih

theorem find_impl_skip (probe : String → Option Response) (tmpl t : String) (m : Nat)
    (j : Nat) (hj : check_redirect (probe (impl_url tmpl t j)) = false) :
    ∀ order : List Nat,
      find_implementation_tenants probe tmpl t m order
        = find_implementation_tenants probe tmpl t m (order.filter (fun x => x != j)) := by
  have hmap : ∀ order : List Nat,
      order.filterMap (fun i =>
        if check_redirect (probe (impl_url tmpl t i)) then some (impl_pair tmpl t i)
        else none)
      = (order.filter (fun x => x != j)).filterMap (fun i =>
        if check_redirect (probe (impl_url tmpl t i)) then some (impl_pair tmpl t i)
        else none) := by
    intro order
    induction order with
    | nil => rfl
    | cons i rest ih =>
      by_cases hij : i = j
      · have hfil : (i :: rest).filter (fun x => x != j) = rest.filter (fun x => x != j) := by
          simp [List.filter_cons, hij]
        have hji : check_redirect (probe (impl_url tmpl t i)) = false := by
          rw [hij]
          exact hj
        rw [hfil, List.filterMap_cons]
        simp only [hji, Bool.false_eq_true, if_false]
        exact ih
      · have hfil : (i :: rest).filter (fun x => x != j)
            = i :: rest.filter (fun x => x != j) := by
          simp [List.filter_cons, hij]
        rw [hfil, List.filterMap_cons, List.filterMap_cons, ih]
  intro order
  unfold find_implementation_tenants
  rw [hmap order]

/-! Dictionary lookup facts for the sandbox registry. -/

theorem pyDictGet_mem_values : ∀ (l : List (String × String)) (k v : String),
    pyDictGet l k = some v → v ∈ l.map Prod.snd
  | [], _, _, h => Option.noConfusion h
  | (k0, v0) :: rest, k, v, h => by
    simp only [pyDictGet] at h
    by_cases hk : k = k0
    · rw [if_pos hk] at h
      simp [Option.some.inj h]
    · rw [if_neg hk] at h
      simp only [List.map_cons, List.mem_cons]
      exact Or.inr (pyDictGet_mem_values rest k v h)

theorem pyDictGet_eq_none : ∀ (l : List (String × String)) (k : String),
    pyDictGet l k = none ↔ k ∉ l.map Prod.fst
  | [], k => by simp [pyDictGet]
  | (k0, v0) :: rest, k => by
    simp only [pyDictGet, List.map_cons, List.mem_cons]
    by_cases hk : k = k0
    · rw [if_pos hk]
      simp [hk]
    · rw [if_neg hk]
      rw [pyDictGet_eq_none rest k]
      constructor
      · intro h hor
        rcases hor with h1 | h2
        · exact hk h1
        · exact h h2
      · intro h
        exact fun h2 => h (Or.inr h2)

/-! Claim theorems. -/

/-- Claim C1: a probe response whose final resolved URL equals the sentinel
invalid URL up to a trailing-slash difference is judged invalid by
check_redirect regardless of its status code, headers or body; this sentinel
comparison is the first check applied to a completed exchange, before the
status-code check, so the status is never consulted. -/
theorem claim_C1 (r : Response)
    (h : _normalize_url r.url = _normalize_url INVALID_URL) :
    check_redirect (some r) = false := by
  simp [check_redirect, h]

/-- Witness for C1: a sentinel redirect with a trailing slash and HTTP 200. -/
theorem claim_C1_witness :
    check_redirect (some ⟨"https://community.workday.com/invalid-url?dev=1/", 200,
      "text/html", "ok", none⟩) = false :=
  claim_C1 _ (by decide)

/-- Counterexample for C2 as stated: a response with HTTP 200 and a structured
body with failover set to true and no error-message field is nevertheless
judged invalid when its final URL is the sentinel, because the sentinel rule
precedes the body rule. -/
theorem claim_C2_counterexample :
    check_redirect (some ⟨INVALID_URL, 200, "application/json",
      "\x7b\"failover\": true\x7d", some (Json.obj [("failover", Json.bool true)])⟩)
      = false
    ∧ (Json.obj [("failover", Json.bool true)]).getKey "failover" = some (Json.bool true)
    ∧ (Json.obj [("failover", Json.bool true)]).getKey "errorMessage" = none :=
  ⟨by decide, rfl, rfl⟩

/-- Claim C2, amended: with HTTP 200 and a JSON content type, a parsed body
whose failover field holds False is judged invalid; and - provided the final
URL is not the sentinel, which the ordered policy of C1 forces as an extra
condition - the exact scenario body of the spec (the object with failover set
to true and no other field) with HTTP 200 is judged valid. -/
theorem claim_C2 :
    (∀ (r : Response) (d : Json), r.status_code = 200 →
      strIn "application/json" (pyLower r.content_type) = true →
      r.jsonBody = some d → d.getKey "failover" = some (Json.bool false) →
      check_redirect (some r) = false)
    ∧ (∀ r : Response, r.status_code = 200 →
      _normalize_url r.url ≠ _normalize_url INVALID_URL →
      strIn "application/json" (pyLower r.content_type) = true →
      r.jsonBody = some (Json.obj [("failover", Json.bool true)]) →
      r.text = "\x7b\"failover\": true\x7d" →
      check_redirect (some r) = true) := by
  constructor
  · intro r d hs hct hjb hfo
    by_cases hurl : _normalize_url r.url = _normalize_url INVALID_URL
    · simp [check_redirect, hurl]
    · have hjv : json_verdict (pyLower r.content_type) r.jsonBody = true := by
        cases d with
        | obj fields =>
          simp only [Json.getKey] at hfo
          simp [json_verdict, hct, hjb, json_error_found, hfo]
        | null => simp [Json.getKey] at hfo
        | bool b => simp [Json.getKey] at hfo
        | num n => simp [Json.getKey] at hfo
        | str s => simp [Json.getKey] at hfo
        | arr elts => simp [Json.getKey] at hfo
      simp [check_redirect, hurl, hs, hjv]
  · intro r hs hurl hct hjb htext
    have hjv : json_verdict (pyLower r.content_type)
        (some (Json.obj [("failover", Json.bool true)])) = false := by
      simp [json_verdict, hct, json_error_found, jsonLookup]
    have htv : text_verdict r.text = false := by
      rw [htext]
      decide
    simp [check_redirect, hurl, hs, hjb, hjv, htv]

/-- Witness for the amended C2 at the two scenario bodies of the spec, on a
non-sentinel data-center URL. -/
theorem claim_C2_witness :
    check_redirect (some ⟨"https://wd3.myworkday.com/wday/authgwy/acme/login.htmld?redirect=n",
      200, "application/json", "\x7b\"failover\":false\x7d",
      some (Json.obj [("failover", Json.bool false)])⟩) = false
    ∧ check_redirect (some ⟨"https://wd3.myworkday.com/wday/authgwy/acme/login.htmld?redirect=n",
      200, "application/json", "\x7b\"failover\": true\x7d",
      some (Json.obj [("failover", Json.bool true)])⟩) = true :=
  ⟨claim_C2.1 _ _ rfl (by decide) rfl rfl,
   claim_C2.2 _ rfl (by decide) (by decide) rfl rfl⟩

/-- Counterexample for C3 as stated: with identical outcomes (every data center
validates), two completion orders - both permutations of the registry index
set - make find_production_url return different entries.  The function returns
the first valid future in completion order, not the lowest-index registry
entry. -/
theorem claim_C3_counterexample :
    ([1, 0, 2, 3, 4, 5, 6, 7, 8, 9, 10, 11, 12].Perm (List.range 13))
    ∧ find_production_url (fun u => some ⟨u, 200, "", "", none⟩) (List.range 13) "acme"
        = some ("Data Center 1",
            "https://www.myworkday.com/wday/authgwy/acme/login.htmld?redirect=n")
    ∧ find_production_url (fun u => some ⟨u, 200, "", "", none⟩)
        [1, 0, 2, 3, 4, 5, 6, 7, 8, 9, 10, 11, 12] "acme"
        = some ("Data Center 3",
            "https://wd3.myworkday.com/wday/authgwy/acme/login.htmld?redirect=n") :=
  ⟨by decide, by decide, by decide⟩

/-- Claim C3, amended: find_production_url returns the first probe in
completion order that validates, so with two or more valid entries the result
depends on scheduling; determinism holds in the case the spec scenario singles
out: when exactly one registry entry validates, every completion-order
permutation returns that entry and its substituted URL. -/
theorem claim_C3 (probe : String → Option Response) (t : String) (k : Nat)
    (dck : String × String) (order : List Nat)
    (hperm : order.Perm (List.range data_centers.length))
    (hget : data_centers.get? k = some dck)
    (hvalid : check_redirect (probe (pyFormat dck.2 t)) = true)
    (hothers : ∀ j < data_centers.length, j ≠ k → ∀ dc, data_centers.get? j = some dc →
      check_redirect (probe (pyFormat dc.2 t)) = false) :
    find_production_url probe order t = some (dck.1, pyFormat dck.2 t) := by
  have hk : k < data_centers.length := by
    by_contra hge
    rw [List.get?_eq_none.mpr (by omega)] at hget
    exact Option.noConfusion hget
  have hmem : k ∈ order := hperm.mem_iff.mpr (List.mem_range.mpr hk)
  exact find_production_unique probe t k dck hget hvalid hothers order hmem

/-- Witness for the amended C3: only Data Center 5 (index 2) validates, and a
completion order that yields other futures first still returns it. -/
theorem claim_C3_witness :
    find_production_url
      (fun u => if u = "https://wd5.myworkday.com/wday/authgwy/acme/login.htmld?redirect=n"
        then some ⟨u, 200, "", "", none⟩ else none)
      [3, 0, 2, 1, 4, 5, 6, 7, 8, 9, 10, 11, 12] "acme"
      = some ("Data Center 5",
          pyFormat "https://wd5.myworkday.com/wday/authgwy/{id}/login.htmld?redirect=n" "acme") :=
  claim_C3 _ "acme" 2
    ("Data Center 5", "https://wd5.myworkday.com/wday/authgwy/{id}/login.htmld?redirect=n")
    _ (by decide) (by decide) (by decide) (by decide)

/-- Claim C4: for every sandbox template, tenant id, maxIndex and every
completion-order permutation of the probed indices, the scanner returns the
canonical list - the valid candidates in ascending index order - so the output
is sorted strictly ascending by the numeric index parsed back from each label
(multi-digit indices included, since the key is parsed as an integer) and is
independent of scheduling. -/
theorem claim_C4 (probe : String → Option Response) (tmpl t : String) (m : Nat)
    (order : List Nat) (hperm : order.Perm (List.range' 1 m)) :
    find_implementation_tenants probe tmpl t m order = implCanonical probe tmpl t m
    ∧ List.Pairwise (fun p q => labelKey p.1 < labelKey q.1)
        (find_implementation_tenants probe tmpl t m order) := by
  have h := find_impl_eq_canonical probe tmpl t m order hperm
  refine ⟨h, ?_⟩
  rw [h]
  exact implCanonical_pairwise probe tmpl t m

/-- Witness for C4 with ten candidates completing in reverse order; the result
is the canonical ascending list, with IMPL10 sorting after IMPL9. -/
theorem claim_C4_witness :
    find_implementation_tenants probeOk "https://x/{id}/login" "acme" 10
        [10, 9, 8, 7, 6, 5, 4, 3, 2, 1]
      = implCanonical probeOk "https://x/{id}/login" "acme" 10
    ∧ List.Pairwise (fun p q => labelKey p.1 < labelKey q.1)
        (find_implementation_tenants probeOk "https://x/{id}/login" "acme" 10
          [10, 9, 8, 7, 6, 5, 4, 3, 2, 1]) :=
  claim_C4 probeOk "https://x/{id}/login" "acme" 10 _ (by decide)

/-- Claim C5: a probe whose network request fails (a raised
requests.RequestException, modelled by a none outcome) makes check_redirect
return false rather than raising, and the enclosing scans continue with the
remaining candidates: removing the failing candidate from the completion order
leaves both scan results unchanged. -/
theorem claim_C5 :
    check_redirect none = false
    ∧ (∀ (probe : String → Option Response) (t : String) (j : Nat) (order : List Nat),
        (∀ dc, data_centers.get? j = some dc → probe (pyFormat dc.2 t) = none) →
        find_production_url probe order t
          = find_production_url probe (order.filter (fun i => i != j)) t)
    ∧ (∀ (probe : String → Option Response) (tmpl t : String) (m j : Nat)
        (order : List Nat), probe (impl_url tmpl t j) = none →
        find_implementation_tenants probe tmpl t m order
          = find_implementation_tenants probe tmpl t m (order.filter (fun x => x != j))) := by
  refine ⟨rfl, ?_, ?_⟩
  · intro probe t j order hfail
    exact find_production_skip probe t j (fun dc hdc => by rw [hfail dc hdc]; rfl) order
  · intro probe tmpl t m j order hfail
    exact find_impl_skip probe tmpl t m j (by rw [hfail]; rfl) order

/-- Witness for C5: with every probe failing, dropping one candidate from the
completion order changes nothing in either scan. -/
theorem claim_C5_witness :
    find_production_url (fun _ => none) (List.range 13) "acme"
      = find_production_url (fun _ => none) ((List.range 13).filter (fun i => i != 0)) "acme"
    ∧ find_implementation_tenants (fun _ => none) "https://x/{id}/login" "acme" 3 [1, 2, 3]
      = find_implementation_tenants (fun _ => none) "https://x/{id}/login" "acme" 3
          ([1, 2, 3].filter (fun x => x != 2)) :=
  ⟨claim_C5.2.1 (fun _ => none) "acme" 0 (List.range 13) (fun dc _ => rfl),
   claim_C5.2.2 (fun _ => none) "https://x/{id}/login" "acme" 3 2 [1, 2, 3] rfl⟩

/-- Counterexample for C6 as stated: a 200 response with a JSON content type
whose body is malformed (r.json() raised, so jsonBody is none) does not raise,
but the verdict does NOT fall through to the status-code rule: the raw-text
pattern scan of lines 98-108 still fires on the partial text, and the oracle
returns invalid although the status is 2xx and the final URL is not the
sentinel. -/
theorem claim_C6_counterexample :
    check_redirect (some ⟨"https://wd5.myworkday.com/wday/authgwy/acme/login.htmld?redirect=n",
      200, "application/json", "\x7b\"failover\":false", none⟩) = false
    ∧ (200 ≤ 200 ∧ 200 < 300)
    ∧ _normalize_url "https://wd5.myworkday.com/wday/authgwy/acme/login.htmld?redirect=n"
        ≠ _normalize_url INVALID_URL :=
  ⟨by decide, by omega, by decide⟩

/-- Claim C6, amended: a response whose body claims to be structured but fails
to parse (jsonBody = none) never raises - check_redirect is total - and,
provided the raw-text error-pattern scan on the malformed text does not fire,
the verdict falls through to the status rule: valid exactly when the status is
2xx, given no sentinel match.  (The amendment inserts the raw-text scan, which
the code runs before the status rule even when parsing failed.) -/
theorem claim_C6 (r : Response)
    (hurl : _normalize_url r.url ≠ _normalize_url INVALID_URL)
    (hct : strIn "application/json" (pyLower r.content_type) = true)
    (hjb : r.jsonBody = none)
    (htv : text_verdict r.text = false) :
    check_redirect (some r) = decide (200 ≤ r.status_code ∧ r.status_code < 300) := by
  have hjv : json_verdict (pyLower r.content_type) r.jsonBody = false := by
    rw [hjb]
    unfold json_verdict
    split <;> rfl
  by_cases h4 : 400 ≤ r.status_code
  · have hno : ¬ (200 ≤ r.status_code ∧ r.status_code < 300) := by omega
    rw [decide_eq_false hno]
    simp [check_redirect, hurl, h4]
  · simp [check_redirect, hurl, h4, hjv, htv]

/-- Witness for the amended C6: a malformed non-pattern body on a 204 response
is inconclusive and the status rule decides. -/
theorem claim_C6_witness :
    check_redirect (some ⟨"https://wd3.myworkday.com/wday/authgwy/acme/login.htmld?redirect=n",
      204, "application/json", "\x7bnot valid json", none⟩)
      = decide (200 ≤ 204 ∧ 204 < 300) :=
  claim_C6 _ (by decide) (by decide) rfl (by decide)

/-- Claim C7: the preview and customer-central derivations are pure string
substitutions: on a template containing the placeholder segment at exactly one
occurrence position (and not already containing the preview or cc markers),
each derivation inserts its marker exactly once (a single substitution at that
position), and each is idempotent - applying it to its own output changes
nothing. -/
theorem claim_C7 (s : String) (n : Nat)
    (hu : uniqueOccAt ("/{id}/".data) s.data n)
    (hm1 : strIn "_Preview" s = false) (hm2 : strIn "_cc" s = false) :
    find_preview_url s
      = ⟨s.data.take n ++ ("/{id}_Preview/").data ++ s.data.drop (n + 6)⟩
    ∧ find_preview_url (find_preview_url s) = find_preview_url s
    ∧ find_cc_url s = ⟨s.data.take n ++ ("/{id}_cc/").data ++ s.data.drop (n + 6)⟩
    ∧ find_cc_url (find_cc_url s) = find_cc_url s := by
  have hpat : ("/{id}/".data : List Char) = "/{id}".data ++ ['/'] := by decide
  have hprev : ("/{id}_Preview/".data : List Char)
      = "/{id}".data ++ "_Preview".data ++ ['/'] := by decide
  have hccd : ("/{id}_cc/".data : List Char) = "/{id}".data ++ "_cc".data ++ ['/'] := by decide
  have hp : ("/{id}/".data : List Char) ≠ [] := by decide
  have hlen : ("/{id}/".data : List Char).length = 6 := by decide
  have hinP : ∀ j < ("/{id}_Preview/".data : List Char).length,
      j + ("/{id}/".data : List Char).length ≤ ("/{id}_Preview/".data : List Char).length →
      ¬ isPre ("/{id}/".data) (("/{id}_Preview/".data : List Char).drop j) = true := by decide
  have hsufP : ∀ k < ("/{id}/".data : List Char).length, 2 ≤ k →
      ("/{id}/".data : List Char).take k
        ≠ ("/{id}_Preview/".data : List Char).drop
            (("/{id}_Preview/".data : List Char).length - k) := by decide
  have hinC : ∀ j < ("/{id}_cc/".data : List Char).length,
      j + ("/{id}/".data : List Char).length ≤ ("/{id}_cc/".data : List Char).length →
      ¬ isPre ("/{id}/".data) (("/{id}_cc/".data : List Char).drop j) = true := by decide
  have hsufC : ∀ k < ("/{id}/".data : List Char).length, 2 ≤ k →
      ("/{id}/".data : List Char).take k
        ≠ ("/{id}_cc/".data : List Char).drop
            (("/{id}_cc/".data : List Char).length - k) := by decide
  refine ⟨?_, ?_, ?_, ?_⟩
  · show (⟨listReplace "/{id}/".data "/{id}_Preview/".data s.data⟩ : String) = _
    rw [replace_of_unique hp hu, hlen]
  · show (⟨listReplace "/{id}/".data "/{id}_Preview/".data
        (listReplace "/{id}/".data "/{id}_Preview/".data s.data)⟩ : String)
      = ⟨listReplace "/{id}/".data "/{id}_Preview/".data s.data⟩
    exact congrArg String.mk (replace_idem hpat hprev hinP hsufP hu)
  · show (⟨listReplace "/{id}/".data "/{id}_cc/".data s.data⟩ : String) = _
    rw [replace_of_unique hp hu, hlen]
  · show (⟨listReplace "/{id}/".data "/{id}_cc/".data
        (listReplace "/{id}/".data "/{id}_cc/".data s.data)⟩ : String)
      = ⟨listReplace "/{id}/".data "/{id}_cc/".data s.data⟩
    exact congrArg String.mk (replace_idem hpat hccd hinC hsufC hu)

/-- Witness for C7 at the scenario template of the spec, whose placeholder
segment occurs exactly once, at position 9. -/
theorem claim_C7_witness :
    find_preview_url "https://x/{id}/login"
      = ⟨("https://x/{id}/login".data).take 9 ++ ("/{id}_Preview/").data
          ++ ("https://x/{id}/login".data).drop (9 + 6)⟩
    ∧ find_preview_url (find_preview_url "https://x/{id}/login")
        = find_preview_url "https://x/{id}/login"
    ∧ find_cc_url "https://x/{id}/login"
        = ⟨("https://x/{id}/login".data).take 9 ++ ("/{id}_cc/").data
          ++ ("https://x/{id}/login".data).drop (9 + 6)⟩
    ∧ find_cc_url (find_cc_url "https://x/{id}/login") = find_cc_url "https://x/{id}/login" :=
  claim_C7 "https://x/{id}/login" 9 (by decide) (by decide) (by decide)

/-- Claim C8: the scanner probes exactly the candidates for indices 1 to
maxIndex inclusive, each candidate id being the tenant id concatenated with
the decimal index (no separator) substituted into the template; and every
returned pair is the (label, url) pair of one of these candidates whose probe
validated. -/
theorem claim_C8 (probe : String → Option Response) (tmpl t : String) (m : Nat)
    (order : List Nat) (hperm : order.Perm (List.range' 1 m)) :
    urls_to_check tmpl t m
      = (List.range' 1 m).map
          (fun i => (i, t ++ natString i, pyFormat tmpl (t ++ natString i)))
    ∧ ∀ p ∈ find_implementation_tenants probe tmpl t m order,
        ∃ i ∈ List.range' 1 m,
          check_redirect (probe (pyFormat tmpl (t ++ natString i))) = true
          ∧ p = impl_pair tmpl t i := by
  refine ⟨rfl, ?_⟩
  intro p hp
  rw [find_impl_eq_canonical probe tmpl t m order hperm] at hp
  unfold implCanonical at hp
  rcases List.mem_filterMap.mp hp with ⟨i, hi, hf⟩
  by_cases hc : check_redirect (probe (impl_url tmpl t i)) = true
  · rw [if_pos hc] at hf
    exact ⟨i, hi, hc, (Option.some.inj hf).symm⟩
  · rw [if_neg hc] at hf
    exact Option.noConfusion hf

/-- Witness for C8 with three candidates completing out of order. -/
theorem claim_C8_witness :
    urls_to_check "https://x/{id}/login" "acme" 3
      = (List.range' 1 3).map
          (fun i => (i, "acme" ++ natString i,
            pyFormat "https://x/{id}/login" ("acme" ++ natString i)))
    ∧ ∀ p ∈ find_implementation_tenants probeOk "https://x/{id}/login" "acme" 3 [2, 3, 1],
        ∃ i ∈ List.range' 1 3,
          check_redirect (probeOk (pyFormat "https://x/{id}/login" ("acme" ++ natString i)))
            = true
          ∧ p = impl_pair "https://x/{id}/login" "acme" i :=
  claim_C8 probeOk "https://x/{id}/login" "acme" 3 [2, 3, 1] (by decide)

/-- Counterexample for C9 as stated: find_production_url performs no
empty-tenant check itself.  Called directly with the empty tenant id it
formats and submits a probe for every registry entry (the probe list is
nonempty) and can even return a match built from the empty id. -/
theorem claim_C9_counterexample :
    production_probe_urls "" ≠ []
    ∧ find_production_url (fun u => some ⟨u, 200, "", "", none⟩) (List.range 13) ""
        = some ("Data Center 1",
            "https://www.myworkday.com/wday/authgwy//login.htmld?redirect=n") :=
  ⟨by decide, by decide⟩

/-- Claim C9, amended: the fail-fast guard for the empty tenant id lives in
the caller (the src/app.py submit handler), not in the engine: the handler
stops before invoking the engine when the tenant id is empty, so no probe is
scheduled through the app, and for a nonempty tenant id it passes through to
find_production_url unchanged.  find_production_url itself performs no
empty-string validation. -/
theorem claim_C9 (probe : String → Option Response) (order : List Nat) :
    submitted_handler probe order "" = none
    ∧ ∀ t : String, t ≠ "" →
        submitted_handler probe order t = some (find_production_url probe order t) := by
  constructor
  · rfl
  · intro t ht
    unfold submitted_handler
    rw [if_neg ht]

/-- Witness for the amended C9. -/
theorem claim_C9_witness :
    submitted_handler probeOk (List.range 13) "" = none
    ∧ submitted_handler probeOk (List.range 13) "acme"
        = some (find_production_url probeOk (List.range 13) "acme") :=
  ⟨(claim_C9 probeOk (List.range 13)).1,
   (claim_C9 probeOk (List.range 13)).2 "acme" (by decide)⟩

/-- Claim C10: find_sandbox_url depends only on the data-center argument - the
tenant id is ignored; a present result is the raw sandbox template still
containing the placeholder (no substitution is performed); and the result is
absent exactly when the data center is not one of the registered names. -/
theorem claim_C10 :
    (∀ dc t1 t2 : String, find_sandbox_url dc t1 = find_sandbox_url dc t2)
    ∧ (∀ dc t s : String, find_sandbox_url dc t = some s → strIn "{id}" s = true)
    ∧ (∀ dc t : String, find_sandbox_url dc t = none ↔ dc ∉ sandbox_urls.map Prod.fst) := by
  refine ⟨fun dc t1 t2 => rfl, ?_, fun dc t => pyDictGet_eq_none sandbox_urls dc⟩
  intro dc t s hs
  have hmem : s ∈ sandbox_urls.map Prod.snd := pyDictGet_mem_values sandbox_urls dc s hs
  have hall : ∀ v ∈ sandbox_urls.map Prod.snd, strIn "{id}" v = true := by decide
  exact hall s hmem

/-- Witness for C10: the Data Center 1 sandbox template is returned raw, with
its placeholder intact. -/
theorem claim_C10_witness :
    strIn "{id}"
      "https://wd2-impl-identity.workday.com/wday/authgwy/{id}/login.htmld?redirect=n"
      = true :=
  claim_C10.2.1 "Data Center 1" "acme"
    "https://wd2-impl-identity.workday.com/wday/authgwy/{id}/login.htmld?redirect=n" rfl
